import Mathlib

/-
  Verification of the DDC I/Q egress pipeline of the Saturn SDR gateway,
  embedded from sw_projects/P2_app/OutDDCIQ.c.  Machine integers are
  modelled as Nat with explicit `% 2 ^ 32` where 32-bit overflow matters;
  byte buffers are `List Nat` whose elements are byte values.  The target
  host (Raspberry Pi 4) is little-endian, so `htons`/`htonl` are modelled
  as byte swaps and memory stores of multi-byte integers store the bytes
  least-significant first.
-/

namespace Saturn

/-- Compile-time constant `VDMABUFFERSIZE` (OutDDCIQ.c line 34). -/
def VDMABUFFERSIZE : Nat := 131072

/-- Compile-time constant `VBASE` (OutDDCIQ.c line 36). -/
def VBASE : Nat := 0x1000

/-- Compile-time constant `VDMATRANSFERSIZE` (OutDDCIQ.c line 37). -/
def VDMATRANSFERSIZE : Nat := 4096

/-- Compile-time constant `VDDCPACKETSIZE` (OutDDCIQ.c line 38). -/
def VDDCPACKETSIZE : Nat := 1444

/-- Compile-time constant `VIQSAMPLESPERFRAME` (OutDDCIQ.c line 39). -/
def VIQSAMPLESPERFRAME : Nat := 238

/-- Compile-time constant `VIQBYTESPERFRAME = 6*VIQSAMPLESPERFRAME` (OutDDCIQ.c line 40). -/
def VIQBYTESPERFRAME : Nat := 6 * VIQSAMPLESPERFRAME

/-- Compile-time constant `VSTARTUPDELAY` (OutDDCIQ.c line 41). -/
def VSTARTUPDELAY : Nat := 100

/-- Big-endian byte list of a 16-bit value. -/
def be16bytes (v : Nat) : List Nat := [v / 2 ^ 8 % 256, v % 256]

/-- Big-endian byte list of a 32-bit value. -/
def be32bytes (v : Nat) : List Nat :=
  [v / 2 ^ 24 % 256, v / 2 ^ 16 % 256, v / 2 ^ 8 % 256, v % 256]

/-- Little-endian byte list of a 16-bit value, as stored through a
`uint16_t*` on the little-endian target. -/
def le16bytes (v : Nat) : List Nat := [v % 256, v / 2 ^ 8 % 256]

/-- Little-endian byte list of a 32-bit value, as stored through a
`uint32_t*` on the little-endian target. -/
def le32bytes (v : Nat) : List Nat :=
  [v % 256, v / 2 ^ 8 % 256, v / 2 ^ 16 % 256, v / 2 ^ 24 % 256]

/-- `htons` on the little-endian target: byte swap of a 16-bit value. -/
def hton16 (v : Nat) : Nat := v % 256 * 2 ^ 8 + v / 2 ^ 8 % 256

/-- `htonl` on the little-endian target: byte reversal of a 32-bit value. -/
def hton32 (v : Nat) : Nat :=
  v % 256 * 2 ^ 24 + v / 2 ^ 8 % 256 * 2 ^ 16 + v / 2 ^ 16 % 256 * 2 ^ 8 + v / 2 ^ 24 % 256

/-- Overwrite `bs.length` bytes of `buf` starting at offset `off`
(the effect of a `memcpy`/pointer store into a byte buffer). -/
def storeBytes (buf : List Nat) (off : Nat) (bs : List Nat) : List Nat :=
  buf.take off ++ bs ++ buf.drop (off + bs.length)

/-- The UDP packet composition performed by the drain-loop body
(OutDDCIQ.c lines 181-185): store `htonl(SequenceCounter)` at offset 0,
zero offsets 4-11, store `htons(24)` at offset 12 through a `uint16_t*`,
store `htons(VIQSAMPLESPERFRAME)` at offset 14 through a `uint32_t*`
(a 4-byte store), then `memcpy` `VIQBYTESPERFRAME` ring bytes to offset 16.
`udp` is the previous contents of `UDPBuffer[DDC]`, `iq` the ring bytes
from `IQReadPtr[DDC]` on. -/
def composePacket (udp : List Nat) (seq : Nat) (iq : List Nat) : List Nat :=
  let b1 := storeBytes udp 0 (le32bytes (hton32 (seq % 2 ^ 32)))
  let b2 := storeBytes b1 4 (List.replicate 8 0)
  let b3 := storeBytes b2 12 (le16bytes (hton16 24))
  let b4 := storeBytes b3 14 (le32bytes (hton16 VIQSAMPLESPERFRAME))
  storeBytes b4 16 (iq.take VIQBYTESPERFRAME)

theorem le32bytes_hton32 (m : Nat) :
    le32bytes (hton32 m) = be32bytes m := by
  have ha : m % 256 < 256 := Nat.mod_lt _ (by norm_num)
  have hb : m / 2 ^ 8 % 256 < 256 := Nat.mod_lt _ (by norm_num)
  have hc : m / 2 ^ 16 % 256 < 256 := Nat.mod_lt _ (by norm_num)
  have hd : m / 2 ^ 24 % 256 < 256 := Nat.mod_lt _ (by norm_num)
  simp only [le32bytes, hton32, be32bytes, List.cons.injEq, and_true]
  generalize m % 256 = a at ha ⊢
  generalize m / 2 ^ 8 % 256 = b at hb ⊢
  generalize m / 2 ^ 16 % 256 = c at hc ⊢
  generalize m / 2 ^ 24 % 256 = d at hd ⊢
  omega

theorem le32bytes_length (v : Nat) : (le32bytes v).length = 4 := rfl

theorem storeBytes_split (pre post bs : List Nat) (off : Nat) (hpre : pre.length = off) :
    storeBytes (pre ++ post) off bs = pre ++ bs ++ post.drop bs.length := by
  have hnil : pre.drop (off + bs.length) = [] := List.drop_eq_nil_of_le (by omega)
  unfold storeBytes
  rw [List.take_left' hpre, List.drop_append_eq_append_drop, hnil, hpre,
    show off + bs.length - off = bs.length by omega]
  simp [List.append_assoc]

theorem be32bytes_length (v : Nat) : (be32bytes v).length = 4 := rfl

theorem be16bytes_length (v : Nat) : (be16bytes v).length = 2 := rfl

theorem composePacket_eq (udp : List Nat) (seq : Nat) (iq : List Nat)
    (hudp : udp.length = VDDCPACKETSIZE) (hiq : VIQBYTESPERFRAME ≤ iq.length) :
    composePacket udp seq iq =
      be32bytes (seq % 2 ^ 32) ++ List.replicate 8 0 ++ be16bytes 24 ++
        be16bytes VIQSAMPLESPERFRAME ++ iq.take VIQBYTESPERFRAME := by
  have e32 : le32bytes (hton32 (seq % 2 ^ 32)) = be32bytes (seq % 2 ^ 32) :=
    le32bytes_hton32 _
  have hb16 : le16bytes (hton16 24) = be16bytes 24 := by decide
  have hb238 : le32bytes (hton16 VIQSAMPLESPERFRAME) = [0, 238, 0, 0] := by decide
  have h238 : be16bytes VIQSAMPLESPERFRAME = [0, 238] := by decide
  have hA : (be32bytes (seq % 2 ^ 32)).length = 4 := rfl
  have hudp' : udp.length = 1444 := hudp
  have hiq' : (1428 : Nat) ≤ iq.length := hiq
  have hE : (iq.take VIQBYTESPERFRAME).length = 1428 := by
    simpa [List.length_take, VIQBYTESPERFRAME, VIQSAMPLESPERFRAME] using Nat.min_eq_left hiq'
  have hb1 : storeBytes udp 0 (le32bytes (hton32 (seq % 2 ^ 32))) =
      be32bytes (seq % 2 ^ 32) ++ udp.drop 4 := by
    simp only [storeBytes, e32, hA, List.take_zero, List.nil_append, Nat.zero_add]
  have hb2 : storeBytes (be32bytes (seq % 2 ^ 32) ++ udp.drop 4) 4 (List.replicate 8 0) =
      be32bytes (seq % 2 ^ 32) ++ List.replicate 8 0 ++ udp.drop 12 := by
    rw [storeBytes_split _ _ _ 4 (be32bytes_length _)]
    simp [List.drop_drop, List.append_assoc]
  have hb3 : storeBytes (be32bytes (seq % 2 ^ 32) ++ List.replicate 8 0 ++ udp.drop 12) 12
        (le16bytes (hton16 24)) =
      be32bytes (seq % 2 ^ 32) ++ List.replicate 8 0 ++ be16bytes 24 ++ udp.drop 14 := by
    rw [storeBytes_split (be32bytes (seq % 2 ^ 32) ++ List.replicate 8 0) _ _ 12 (by simp [be32bytes_length]),
      hb16]
    simp [List.drop_drop, List.append_assoc, be16bytes]
  have hb4 : storeBytes
        (be32bytes (seq % 2 ^ 32) ++ List.replicate 8 0 ++ be16bytes 24 ++ udp.drop 14) 14
        (le32bytes (hton16 VIQSAMPLESPERFRAME)) =
      be32bytes (seq % 2 ^ 32) ++ List.replicate 8 0 ++ be16bytes 24 ++ [0, 238, 0, 0] ++
        udp.drop 18 := by
    rw [storeBytes_split (be32bytes (seq % 2 ^ 32) ++ List.replicate 8 0 ++ be16bytes 24) _ _ 14
      (by simp [be32bytes_length, be16bytes_length]), hb238]
    simp [List.drop_drop, List.append_assoc, be16bytes]
  have hb5 : storeBytes
        (be32bytes (seq % 2 ^ 32) ++ List.replicate 8 0 ++ be16bytes 24 ++ [0, 238, 0, 0] ++
          udp.drop 18) 16 (iq.take VIQBYTESPERFRAME) =
      be32bytes (seq % 2 ^ 32) ++ List.replicate 8 0 ++ be16bytes 24 ++
        be16bytes VIQSAMPLESPERFRAME ++ iq.take VIQBYTESPERFRAME := by
    have hsplit4 : ([0, 238, 0, 0] : List Nat) = [0, 238] ++ [0, 0] := rfl
    rw [hsplit4]
    have hassoc : be32bytes (seq % 2 ^ 32) ++ List.replicate 8 0 ++ be16bytes 24 ++
          (([0, 238] : List Nat) ++ [0, 0]) ++ udp.drop 18 =
        (be32bytes (seq % 2 ^ 32) ++ List.replicate 8 0 ++ be16bytes 24 ++ [0, 238]) ++
          (([0, 0] : List Nat) ++ udp.drop 18) := by
      simp [List.append_assoc]
    rw [hassoc, storeBytes_split _ _ _ 16 (by simp [be32bytes_length, be16bytes_length]), hE,
      List.drop_eq_nil_of_le (by simp [hudp'])]
    simp [List.append_assoc, h238]
  show storeBytes (storeBytes (storeBytes (storeBytes
      (storeBytes udp 0 (le32bytes (hton32 (seq % 2 ^ 32)))) 4 (List.replicate 8 0)) 12
      (le16bytes (hton16 24))) 14 (le32bytes (hton16 VIQSAMPLESPERFRAME))) 16
      (iq.take VIQBYTESPERFRAME) = _
  rw [hb1, hb2, hb3, hb4, hb5]

theorem take_storeBytes_of_le (buf bs : List Nat) (off k : Nat)
    (hk : k ≤ off) (hoff : off ≤ buf.length) :
    (storeBytes buf off bs).take k = buf.take k := by
  unfold storeBytes
  have h1 : (List.take off buf).length = off := by rw [List.length_take]; omega
  rw [List.take_append_eq_append_take, List.take_append_eq_append_take, List.take_take,
    Nat.min_eq_left hk, h1]
  simp [List.length_append, h1, show k - off = 0 by omega,
    show k - (off + bs.length) = 0 by omega]

theorem storeBytes_length (buf bs : List Nat) (off : Nat) (hoff : off ≤ buf.length) :
    (storeBytes buf off bs).length = max buf.length (off + bs.length) := by
  simp only [storeBytes, List.length_append, List.length_take, List.length_drop]
  omega

/-- Bytes 0-3 of a composed packet always hold the big-endian 32-bit
sequence number, whatever the previous `UDPBuffer` contents were. -/
theorem composePacket_take4 (udp : List Nat) (seq : Nat) (iq : List Nat) :
    (composePacket udp seq iq).take 4 = be32bytes (seq % 2 ^ 32) := by
  show (storeBytes (storeBytes (storeBytes (storeBytes
      (storeBytes udp 0 (le32bytes (hton32 (seq % 2 ^ 32)))) 4 (List.replicate 8 0)) 12
      (le16bytes (hton16 24))) 14 (le32bytes (hton16 VIQSAMPLESPERFRAME))) 16
      (iq.take VIQBYTESPERFRAME)).take 4 = _
  have l1 : (storeBytes udp 0 (le32bytes (hton32 (seq % 2 ^ 32)))).length =
      max udp.length 4 := by
    rw [storeBytes_length _ _ _ (Nat.zero_le _)]
    simp [le32bytes_length]
  have l2 : (storeBytes (storeBytes udp 0 (le32bytes (hton32 (seq % 2 ^ 32)))) 4
      (List.replicate 8 0)).length = max (max udp.length 4) 12 := by
    rw [storeBytes_length _ _ _ (by omega), l1]
    simp
  have l3 : (storeBytes (storeBytes (storeBytes udp 0 (le32bytes (hton32 (seq % 2 ^ 32)))) 4
      (List.replicate 8 0)) 12 (le16bytes (hton16 24))).length =
      max (max (max udp.length 4) 12) 14 := by
    rw [storeBytes_length _ _ _ (by omega), l2]
    simp [le16bytes]
  have l4 : (storeBytes (storeBytes (storeBytes (storeBytes udp 0
      (le32bytes (hton32 (seq % 2 ^ 32)))) 4 (List.replicate 8 0)) 12
      (le16bytes (hton16 24))) 14 (le32bytes (hton16 VIQSAMPLESPERFRAME))).length =
      max (max (max (max udp.length 4) 12) 14) 18 := by
    rw [storeBytes_length _ _ _ (by omega), l3]
    simp [le32bytes_length]
  rw [take_storeBytes_of_le _ _ 16 4 (by omega) (by omega),
    take_storeBytes_of_le _ _ 14 4 (by omega) (by omega),
    take_storeBytes_of_le _ _ 12 4 (by omega) (by omega),
    take_storeBytes_of_le _ _ 4 4 (by omega) (by omega)]
  simp only [storeBytes, List.take_zero, List.nil_append, le32bytes_hton32]
  exact List.take_left' (be32bytes_length _)

/-- Per-DDC packetizer state for a single DDC index, as mutated by the
drain loop of OutDDCIQ.c lines 179-196.  `buf` is the contents of
`DDCSampleBuffer[DDC]`, `readPos`/`headPos` the offsets of
`IQReadPtr[DDC]`/`IQHeadPtr[DDC]` into it, `udp` the contents of
`UDPBuffer[DDC]`, `seq` the value of `SequenceCounter[DDC]`,
`startupCount` the shared `StartupCount`, `initError` the `InitError`
flag, and `sent` the datagrams handed to `sendmsg` so far in this
session, in order. -/
structure DDCState where
  buf : List Nat
  readPos : Nat
  headPos : Nat
  udp : List Nat
  seq : Nat
  startupCount : Nat
  initError : Bool
  sent : List (List Nat)

/-- `if(StartupCount != 0) StartupCount--;` (OutDDCIQ.c lines 189-190). -/
def decStartup (c : Nat) : Nat := if c ≠ 0 then c - 1 else c

/-- One execution of the drain-loop body (OutDDCIQ.c lines 181-195):
compose the packet into `UDPBuffer`, post-increment the 32-bit sequence
counter, advance `IQReadPtr` by `VIQBYTESPERFRAME`, call `sendmsg`,
decrement `StartupCount` if non-zero, and set `InitError` if the send
failed.  `sendOk k` is the outcome of the session's k-th `sendmsg` call
(`false` models a -1 return). -/
def drainStep (sendOk : Nat → Bool) (s : DDCState) : DDCState :=
  let packet := composePacket s.udp s.seq (s.buf.drop s.readPos)
  { s with
    udp := packet
    seq := (s.seq + 1) % 2 ^ 32
    readPos := s.readPos + VIQBYTESPERFRAME
    startupCount := decStartup s.startupCount
    initError := s.initError || !sendOk s.sent.length
    sent := s.sent ++ [packet] }

/-- One pass of the drain loop: the guard
`(IQHeadPtr[DDC] - IQReadPtr[DDC]) > VIQBYTESPERFRAME` (line 179)
followed by the body when it holds. -/
def drainPass (sendOk : Nat → Bool) (s : DDCState) : DDCState :=
  if VIQBYTESPERFRAME < s.headPos - s.readPos then drainStep sendOk s else s

/-- Fuel-indexed iteration of the drain loop; each body execution grows
`readPos` by `VIQBYTESPERFRAME ≥ 1`, so `headPos - readPos` much fuel
always reaches the loop exit. -/
def drainLoopF (sendOk : Nat → Bool) : Nat → DDCState → DDCState
  | 0, s => s
  | fuel + 1, s =>
    if VIQBYTESPERFRAME < s.headPos - s.readPos then
      drainLoopF sendOk fuel (drainStep sendOk s)
    else s

/-- The complete drain `while` loop of OutDDCIQ.c lines 179-196. -/
def drainLoop (sendOk : Nat → Bool) (s : DDCState) : DDCState :=
  drainLoopF sendOk (s.headPos - s.readPos) s

theorem VIQBYTESPERFRAME_eq : VIQBYTESPERFRAME = 1428 := rfl


/-- C1: For every DDC d, one pass of the packetizer's drain loop emits a UDP
datagram exactly when the per-DDC ring's readable length (head - read) is
strictly greater than 1428 bytes, and every emitted datagram is exactly 1444
bytes with bytes 0-3 holding the big-endian per-DDC sequence number, bytes
4-11 zero, bytes 12-13 holding big-endian 24 (0x0018), bytes 14-15 holding
big-endian 238, and bytes 16-1443 holding the next 1428 bytes of that DDC's
ring, which are then consumed (OutDDCIQ.c lines 179-196). -/
theorem C1_drain_pass_packet (s : DDCState) (sendOk : Nat → Bool)
    (hudp : s.udp.length = VDDCPACKETSIZE)
    (hhead : s.headPos ≤ s.buf.length) :
    (drainPass sendOk s).sent.length =
      s.sent.length + (if VIQBYTESPERFRAME < s.headPos - s.readPos then 1 else 0) ∧
    (VIQBYTESPERFRAME < s.headPos - s.readPos →
      ∃ p, (drainPass sendOk s).sent = s.sent ++ [p] ∧
        (drainPass sendOk s).readPos = s.readPos + VIQBYTESPERFRAME ∧
        p.length = VDDCPACKETSIZE ∧
        p.take 4 = be32bytes (s.seq % 2 ^ 32) ∧
        (p.drop 4).take 8 = List.replicate 8 0 ∧
        (p.drop 12).take 2 = be16bytes 24 ∧
        (p.drop 14).take 2 = be16bytes VIQSAMPLESPERFRAME ∧
        p.drop 16 = (s.buf.drop s.readPos).take VIQBYTESPERFRAME) := by
  constructor
  · by_cases h : VIQBYTESPERFRAME < s.headPos - s.readPos
    · simp [drainPass, h, drainStep]
    · simp [drainPass, h]
  · intro h
    have hiq : VIQBYTESPERFRAME ≤ (s.buf.drop s.readPos).length := by
      rw [List.length_drop]
      omega
    have hpeq := composePacket_eq s.udp s.seq (s.buf.drop s.readPos) hudp hiq
    have hiq14 : (1428 : Nat) ≤ s.buf.length - s.readPos := by
      rw [VIQBYTESPERFRAME_eq, List.length_drop] at hiq
      exact hiq
    refine ⟨composePacket s.udp s.seq (s.buf.drop s.readPos), ?_, ?_, ?_, ?_, ?_, ?_, ?_, ?_⟩
    · simp [drainPass, h, drainStep]
    · simp [drainPass, h, drainStep]
    · rw [hpeq]
      simp [List.length_append, be32bytes_length, be16bytes_length, List.length_take,
        List.length_drop, VDDCPACKETSIZE, VIQBYTESPERFRAME_eq]
      omega
    · exact composePacket_take4 _ _ _
    · have hd4 : (composePacket s.udp s.seq (s.buf.drop s.readPos)).drop 4 =
          List.replicate 8 0 ++ (be16bytes 24 ++ (be16bytes VIQSAMPLESPERFRAME ++
            (s.buf.drop s.readPos).take VIQBYTESPERFRAME)) := by
        rw [hpeq, List.append_assoc, List.append_assoc, List.append_assoc]
        exact List.drop_left' (be32bytes_length _)
      rw [hd4]
      exact List.take_left' (by simp)
    · have hd4 : (composePacket s.udp s.seq (s.buf.drop s.readPos)).drop 4 =
          List.replicate 8 0 ++ (be16bytes 24 ++ (be16bytes VIQSAMPLESPERFRAME ++
            (s.buf.drop s.readPos).take VIQBYTESPERFRAME)) := by
        rw [hpeq, List.append_assoc, List.append_assoc, List.append_assoc]
        exact List.drop_left' (be32bytes_length _)
      have hd12 : (composePacket s.udp s.seq (s.buf.drop s.readPos)).drop 12 =
          be16bytes 24 ++ (be16bytes VIQSAMPLESPERFRAME ++
            (s.buf.drop s.readPos).take VIQBYTESPERFRAME) := by
        rw [show (12 : Nat) = 4 + 8 from rfl, ← List.drop_drop, hd4]
        exact List.drop_left' (by simp)
      rw [hd12]
      exact List.take_left' (be16bytes_length _)
    · have hd4 : (composePacket s.udp s.seq (s.buf.drop s.readPos)).drop 4 =
          List.replicate 8 0 ++ (be16bytes 24 ++ (be16bytes VIQSAMPLESPERFRAME ++
            (s.buf.drop s.readPos).take VIQBYTESPERFRAME)) := by
        rw [hpeq, List.append_assoc, List.append_assoc, List.append_assoc]
        exact List.drop_left' (be32bytes_length _)
      have hd12 : (composePacket s.udp s.seq (s.buf.drop s.readPos)).drop 12 =
          be16bytes 24 ++ (be16bytes VIQSAMPLESPERFRAME ++
            (s.buf.drop s.readPos).take VIQBYTESPERFRAME) := by
        rw [show (12 : Nat) = 4 + 8 from rfl, ← List.drop_drop, hd4]
        exact List.drop_left' (by simp)
      have hd14 : (composePacket s.udp s.seq (s.buf.drop s.readPos)).drop 14 =
          be16bytes VIQSAMPLESPERFRAME ++ (s.buf.drop s.readPos).take VIQBYTESPERFRAME := by
        rw [show (14 : Nat) = 12 + 2 from rfl, ← List.drop_drop, hd12]
        exact List.drop_left' (be16bytes_length _)
      rw [hd14]
      exact List.take_left' (be16bytes_length _)
    · have hd4 : (composePacket s.udp s.seq (s.buf.drop s.readPos)).drop 4 =
          List.replicate 8 0 ++ (be16bytes 24 ++ (be16bytes VIQSAMPLESPERFRAME ++
            (s.buf.drop s.readPos).take VIQBYTESPERFRAME)) := by
        rw [hpeq, List.append_assoc, List.append_assoc, List.append_assoc]
        exact List.drop_left' (be32bytes_length _)
      have hd12 : (composePacket s.udp s.seq (s.buf.drop s.readPos)).drop 12 =
          be16bytes 24 ++ (be16bytes VIQSAMPLESPERFRAME ++
            (s.buf.drop s.readPos).take VIQBYTESPERFRAME) := by
        rw [show (12 : Nat) = 4 + 8 from rfl, ← List.drop_drop, hd4]
        exact List.drop_left' (by simp)
      have hd14 : (composePacket s.udp s.seq (s.buf.drop s.readPos)).drop 14 =
          be16bytes VIQSAMPLESPERFRAME ++ (s.buf.drop s.readPos).take VIQBYTESPERFRAME := by
        rw [show (14 : Nat) = 12 + 2 from rfl, ← List.drop_drop, hd12]
        exact List.drop_left' (be16bytes_length _)
      rw [show (16 : Nat) = 14 + 2 from rfl, ← List.drop_drop, hd14]
      exact List.drop_left' (be16bytes_length _)

/-- A concrete per-DDC state with 1429 readable ring bytes, used to
instantiate drain-loop theorems. -/
def C1exState : DDCState :=
  { buf := List.replicate 1430 9
    readPos := 1
    headPos := 1430
    udp := List.replicate 1444 0
    seq := 0
    startupCount := VSTARTUPDELAY
    initError := false
    sent := [] }

set_option maxRecDepth 40000 in
/-- Witness for C1 at a concrete state whose ring holds 1429 readable
bytes. -/
theorem C1_drain_pass_packet_witness :
    C1exState.udp.length = VDDCPACKETSIZE ∧
    C1exState.headPos ≤ C1exState.buf.length ∧
    (drainPass (fun _ => true) C1exState).sent.length = C1exState.sent.length +
      (if VIQBYTESPERFRAME < C1exState.headPos - C1exState.readPos then 1 else 0) :=
  ⟨by decide, by decide,
    (C1_drain_pass_packet C1exState (fun _ => true) (by decide) (by decide)).1⟩


/-- One event of a streaming session as seen by a single DDC:
`fill bytes` models the parser writing `bytes` at `IQHeadPtr[DDC]` and
advancing the head (OutDDCIQ.c lines 280-288); `drain sendOk` models one
run of the drain loop (lines 179-196) with per-call send outcomes
`sendOk`. -/
inductive SessionOp where
  | fill (bytes : List Nat)
  | drain (sendOk : Nat → Bool)

def applyOp (s : DDCState) : SessionOp → DDCState
  | SessionOp.fill bytes =>
    { s with buf := storeBytes s.buf s.headPos bytes, headPos := s.headPos + bytes.length }
  | SessionOp.drain sendOk => drainLoop sendOk s

/-- Stream-start (Arming) initialisation for one DDC
(OutDDCIQ.c lines 158-171): `SequenceCounter[DDC] = 0`,
`StartupCount = VSTARTUPDELAY`, and no packet has been sent yet in this
session. -/
def armState (buf udp : List Nat) (readPos headPos : Nat) : DDCState :=
  { buf := buf, readPos := readPos, headPos := headPos, udp := udp,
    seq := 0, startupCount := VSTARTUPDELAY, initError := false, sent := [] }

/-- A whole session for one DDC: Arming followed by an arbitrary
interleaving of parser fills and drain passes. -/
def sessionRun (buf udp : List Nat) (readPos headPos : Nat) (ops : List SessionOp) : DDCState :=
  ops.foldl applyOp (armState buf udp readPos headPos)

/-- Invariant tying the 32-bit sequence counter to the packets emitted so
far in the session. -/
def SeqInv (s : DDCState) : Prop :=
  s.seq = s.sent.length % 2 ^ 32 ∧
  ∀ i, i < s.sent.length → (s.sent.getD i []).take 4 = be32bytes (i % 2 ^ 32)

theorem drainStep_SeqInv (sendOk : Nat → Bool) (s : DDCState) (h : SeqInv s) :
    SeqInv (drainStep sendOk s) := by
  obtain ⟨h1, h2⟩ := h
  constructor
  · simp only [drainStep, List.length_append, List.length_cons, List.length_nil, h1]
    omega
  · intro i hi
    simp only [drainStep, List.length_append, List.length_cons, List.length_nil] at hi
    by_cases hlt : i < s.sent.length
    · rw [show (drainStep sendOk s).sent = s.sent ++
        [composePacket s.udp s.seq (s.buf.drop s.readPos)] from rfl,
        List.getD_append _ _ _ _ hlt]
      exact h2 i hlt
    · have hieq : i = s.sent.length := by omega
      rw [show (drainStep sendOk s).sent = s.sent ++
        [composePacket s.udp s.seq (s.buf.drop s.readPos)] from rfl,
        List.getD_append_right _ _ _ _ (by omega), hieq, Nat.sub_self]
      rw [show ([composePacket s.udp s.seq (s.buf.drop s.readPos)].getD 0 []) =
        composePacket s.udp s.seq (s.buf.drop s.readPos) from rfl]
      rw [composePacket_take4, h1]
      congr 1
      omega

theorem drainLoopF_SeqInv (sendOk : Nat → Bool) :
    ∀ (fuel : Nat) (s : DDCState), SeqInv s → SeqInv (drainLoopF sendOk fuel s)
  | 0, s, h => h
  | fuel + 1, s, h => by
    rw [drainLoopF]
    by_cases hg : VIQBYTESPERFRAME < s.headPos - s.readPos
    · simpa [hg] using drainLoopF_SeqInv sendOk fuel _ (drainStep_SeqInv sendOk s h)
    · simpa [hg] using h

theorem applyOp_SeqInv (s : DDCState) (op : SessionOp) (h : SeqInv s) :
    SeqInv (applyOp s op) := by
  cases op with
  | fill bytes =>
    obtain ⟨h1, h2⟩ := h
    exact ⟨h1, h2⟩
  | drain sendOk => exact drainLoopF_SeqInv sendOk _ s h

theorem foldl_applyOp_SeqInv : ∀ (ops : List SessionOp) (s : DDCState), SeqInv s →
    SeqInv (ops.foldl applyOp s)
  | [], _, h => h
  | op :: rest, s, h =>
    foldl_applyOp_SeqInv rest (applyOp s op) (applyOp_SeqInv s op h)

/-- C4: For each DDC d, within a single stream session the sequence numbers
written into emitted packets are 0, 1, 2, ... with no gaps (as 32-bit
values, so modulo 2^32): the counter is reset to 0 when the stream starts
(Arming, OutDDCIQ.c line 161) and post-incremented by exactly 1 per emitted
packet (line 181), so the i-th packet of the session carries big-endian
i % 2^32 in bytes 0-3. -/
theorem C4_sequence_monotone (buf udp : List Nat) (readPos headPos : Nat)
    (ops : List SessionOp) (i : Nat) :
    (armState buf udp readPos headPos).seq = 0 ∧
    (∀ (sendOk : Nat → Bool) (t : DDCState),
      (drainStep sendOk t).seq = (t.seq + 1) % 2 ^ 32) ∧
    (i < (sessionRun buf udp readPos headPos ops).sent.length →
      ((sessionRun buf udp readPos headPos ops).sent.getD i []).take 4 =
        be32bytes (i % 2 ^ 32)) := by
  refine ⟨rfl, fun sendOk t => rfl, fun hi => ?_⟩
  have hinv : SeqInv (sessionRun buf udp readPos headPos ops) :=
    foldl_applyOp_SeqInv ops _ ⟨rfl, by intro j hj; simp [armState] at hj⟩
  exact hinv.2 i hi

set_option maxRecDepth 40000 in
/-- Witness for C4: a one-drain session that emits a single packet; its
first four bytes are the big-endian sequence number 0. -/
theorem C4_sequence_monotone_witness :
    0 < (sessionRun (List.replicate 1430 3) (List.replicate 1444 0) 0 1429
        [SessionOp.drain (fun _ => true)]).sent.length ∧
    ((sessionRun (List.replicate 1430 3) (List.replicate 1444 0) 0 1429
        [SessionOp.drain (fun _ => true)]).sent.getD 0 []).take 4 = be32bytes (0 % 2 ^ 32) :=
  ⟨by decide,
    (C4_sequence_monotone (List.replicate 1430 3) (List.replicate 1444 0) 0 1429
      [SessionOp.drain (fun _ => true)] 0).2.2 (by decide)⟩


theorem drainLoopF_initError_mono (sendOk : Nat → Bool) :
    ∀ (fuel : Nat) (s : DDCState), s.initError = true →
      (drainLoopF sendOk fuel s).initError = true
  | 0, s, h => h
  | fuel + 1, s, h => by
    rw [drainLoopF]
    by_cases hg : VIQBYTESPERFRAME < s.headPos - s.readPos
    · have hstep : (drainStep sendOk s).initError = true := by
        simp [drainStep, h]
      simpa [hg] using drainLoopF_initError_mono sendOk fuel _ hstep
    · simpa [hg] using h

theorem drainLoopF_count (sendOk : Nat → Bool) :
    ∀ (fuel : Nat) (s : DDCState), s.headPos - s.readPos ≤ fuel →
      (drainLoopF sendOk fuel s).sent.length =
        s.sent.length + (s.headPos - s.readPos - 1) / 1428 ∧
      (drainLoopF sendOk fuel s).readPos =
        s.readPos + 1428 * ((s.headPos - s.readPos - 1) / 1428) ∧
      (drainLoopF sendOk fuel s).headPos = s.headPos
  | 0, s, hfuel => by
    have h0 : s.headPos - s.readPos = 0 := by omega
    simp [drainLoopF, h0]
  | fuel + 1, s, hfuel => by
    rw [drainLoopF]
    by_cases hg : VIQBYTESPERFRAME < s.headPos - s.readPos
    · rw [if_pos hg]
      rw [VIQBYTESPERFRAME_eq] at hg
      have hh : (drainStep sendOk s).headPos = s.headPos := rfl
      have hr : (drainStep sendOk s).readPos = s.readPos + 1428 := rfl
      have hs : (drainStep sendOk s).sent.length = s.sent.length + 1 := by simp [drainStep]
      obtain ⟨ih1, ih2, ih3⟩ := drainLoopF_count sendOk fuel (drainStep sendOk s)
        (by rw [hh, hr]; omega)
      rw [hs, hh, hr] at ih1
      rw [hh, hr] at ih2
      rw [hh] at ih3
      have hdiv : (s.headPos - s.readPos - 1) / 1428 =
          (s.headPos - (s.readPos + 1428) - 1) / 1428 + 1 := by
        rw [show s.headPos - s.readPos - 1 = (s.headPos - (s.readPos + 1428) - 1) + 1428
          by omega, Nat.add_div_right _ (by norm_num)]
      refine ⟨?_, ?_, ih3⟩
      · rw [ih1, hdiv]; omega
      · rw [ih2, hdiv]; ring
    · rw [if_neg hg]
      rw [VIQBYTESPERFRAME_eq] at hg
      have h0 : (s.headPos - s.readPos - 1) / 1428 = 0 := Nat.div_eq_of_lt (by omega)
      simp [h0]


theorem drainLoopF_sendOk_of_no_error (sendOk : Nat → Bool) :
    ∀ (fuel : Nat) (s : DDCState),
      (drainLoopF sendOk fuel s).initError = false →
      s.initError = false ∧
      ∀ i, s.sent.length ≤ i → i < (drainLoopF sendOk fuel s).sent.length → sendOk i = true
  | 0, s, h => by
    rw [drainLoopF] at h
    exact ⟨h, fun i h1 h2 => by rw [drainLoopF] at h2; omega⟩
  | fuel + 1, s, h => by
    rw [drainLoopF] at h ⊢
    by_cases hg : VIQBYTESPERFRAME < s.headPos - s.readPos
    · rw [if_pos hg] at h ⊢
      obtain ⟨h1, h2⟩ := drainLoopF_sendOk_of_no_error sendOk fuel (drainStep sendOk s) h
      have hor : s.initError = false ∧ sendOk s.sent.length = true := by
        have hh : (s.initError || !sendOk s.sent.length) = false := h1
        simpa using hh
      refine ⟨hor.1, fun i hle hlt => ?_⟩
      by_cases hi : i = s.sent.length
      · rw [hi]; exact hor.2
      · have hlen : (drainStep sendOk s).sent.length = s.sent.length + 1 := by simp [drainStep]
        exact h2 i (by omega) hlt
    · rw [if_neg hg] at h ⊢
      exact ⟨h, fun i h1 h2 => by omega⟩

/-- A concrete per-DDC state with 2857 readable ring bytes (room for two
packets in one drain pass). -/
def C5exState : DDCState :=
  { buf := List.replicate 2857 1
    readPos := 0
    headPos := 2857
    udp := List.replicate 1444 0
    seq := 0
    startupCount := VSTARTUPDELAY
    initError := false
    sent := [] }

set_option maxRecDepth 100000 in
/-- Counterexample to C5: starting from a per-DDC ring with 2857 readable
bytes and every `sendmsg` call failing, the first send of the drain pass
fails and sets `InitError` -- yet the drain loop guard (OutDDCIQ.c line
179) does not test `InitError`, so a second packet is composed and sent in
the same drain pass.  Under the claim, at most one packet would have been
sent. -/
theorem C5_counterexample :
    (drainLoop (fun _ => false) C5exState).initError = true ∧
    (drainLoop (fun _ => false) C5exState).sent.length = 2 := by
  constructor
  · decide
  · decide

/-- C5 amended: if a UDP send fails while draining a per-DDC ring, the
packetizer sets the fatal error flag (`InitError`) but does not exit the
drain loop: the number of packets composed and sent in the pass is
determined solely by the ring's readable length, independent of send
outcomes, and the loop keeps going until the readable length is at most
`VIQBYTESPERFRAME`.  The error flag is only observed by the enclosing
streaming loop (line 175), which then terminates before the next
iteration.  (Dually, if no error is flagged, every attempted send
succeeded.) -/
theorem C5_amended_send_failure (s : DDCState) (sendOk sendOk2 : Nat → Bool) :
    (drainLoop sendOk s).sent.length =
      s.sent.length + (s.headPos - s.readPos - 1) / VIQBYTESPERFRAME ∧
    (drainLoop sendOk s).sent.length = (drainLoop sendOk2 s).sent.length ∧
    (drainLoop sendOk { s with initError := true }).initError = true ∧
    ((drainLoop sendOk s).initError = false →
      ∀ i, s.sent.length ≤ i → i < (drainLoop sendOk s).sent.length → sendOk i = true) := by
  have h1 := (drainLoopF_count sendOk (s.headPos - s.readPos) s (le_refl _)).1
  have h2 := (drainLoopF_count sendOk2 (s.headPos - s.readPos) s (le_refl _)).1
  refine ⟨?_, ?_, ?_, ?_⟩
  · rw [VIQBYTESPERFRAME_eq]
    exact h1
  · rw [drainLoop, drainLoop, h1, h2]
  · exact drainLoopF_initError_mono sendOk _ _ rfl
  · exact fun h i hle hlt => (drainLoopF_sendOk_of_no_error sendOk _ s h).2 i hle hlt

set_option maxRecDepth 100000 in
/-- Witness for the amended C5 at a concrete state: with all sends
succeeding no error is flagged, and the send attempted at index 0 indeed
reported success. -/
theorem C5_amended_send_failure_witness :
    (drainLoop (fun _ => true) C5exState).initError = false ∧
    C5exState.sent.length ≤ 0 ∧
    0 < (drainLoop (fun _ => true) C5exState).sent.length ∧
    (fun _ => true : Nat → Bool) 0 = true :=
  ⟨by decide, by decide, by decide,
    (C5_amended_send_failure C5exState (fun _ => true) (fun _ => false)).2.2.2 (by decide) 0
      (by decide) (by decide)⟩


/-- The over-threshold check performed after each FIFO monitor read
(OutDDCIQ.c lines 211-216 and 221-226):
`if((StartupCount == 0) && FIFOOverThreshold) GlobalFIFOOverflows |= 1`. -/
def overflowUpdate (startupCount : Nat) (overThreshold : Bool) (g : Nat) : Nat :=
  if startupCount == 0 && overThreshold then g ||| 1 else g

/-- Events affecting `StartupCount` and `GlobalFIFOOverflows` during a
session: a packet sent by the drain loop (which decrements `StartupCount`
when non-zero, lines 189-190) or a FIFO monitor poll that observed
`FIFOOverThreshold` (lines 210-226). -/
inductive MonEvent where
  | packetSent
  | fifoPoll (overThreshold : Bool)

def monStep : Nat × Nat → MonEvent → Nat × Nat
  | (c, g), MonEvent.packetSent => (decStartup c, g)
  | (c, g), MonEvent.fifoPoll t => (c, overflowUpdate c t g)

def runMon (st : Nat × Nat) (evs : List MonEvent) : Nat × Nat := evs.foldl monStep st

def countPackets (evs : List MonEvent) : Nat :=
  evs.countP fun e => match e with | MonEvent.packetSent => true | _ => false

theorem runMon_g_of_polls_early :
    ∀ (evs : List MonEvent) (c g : Nat),
      (∀ pre t suf, evs = pre ++ MonEvent.fifoPoll t :: suf → countPackets pre < c) →
      (runMon (c, g) evs).2 = g
  | [], _, _, _ => rfl
  | MonEvent.packetSent :: rest, c, g, h => by
    have hrest : ∀ pre t suf, rest = pre ++ MonEvent.fifoPoll t :: suf →
        countPackets pre < decStartup c := by
      intro pre t suf hdec
      have hc := h (MonEvent.packetSent :: pre) t suf (by rw [hdec]; rfl)
      have hcp : countPackets (MonEvent.packetSent :: pre) = countPackets pre + 1 := by
        simp [countPackets, List.countP_cons]
      rw [hcp] at hc
      simp only [decStartup]
      split
      · omega
      · omega
    simpa [runMon, monStep] using runMon_g_of_polls_early rest (decStartup c) g hrest
  | MonEvent.fifoPoll t :: rest, c, g, h => by
    have hc0 : 0 < c := by
      have := h [] t rest rfl
      simpa [countPackets] using this
    have hupd : overflowUpdate c t g = g := by
      simp only [overflowUpdate]
      have : (c == 0) = false := by
        simp [Nat.beq_eq_true_eq]
        omega
      rw [this]
      simp
    have hrest : ∀ pre u suf, rest = pre ++ MonEvent.fifoPoll u :: suf →
        countPackets pre < c := by
      intro pre u suf hdec
      have hc := h (MonEvent.fifoPoll t :: pre) u suf (by rw [hdec]; rfl)
      have hcp : countPackets (MonEvent.fifoPoll t :: pre) = countPackets pre := by
        simp [countPackets, List.countP_cons]
      rw [hcp] at hc
      exact hc
    have := runMon_g_of_polls_early rest c (overflowUpdate c t g) hrest
    simpa [runMon, monStep, hupd] using this

theorem runMon_count :
    ∀ (evs : List MonEvent) (c g : Nat),
      (runMon (c, g) evs).1 = c - min (countPackets evs) c
  | [], c, g => by simp [runMon, countPackets]
  | MonEvent.packetSent :: rest, c, g => by
    have ih := runMon_count rest (decStartup c) g
    have hcp : countPackets (MonEvent.packetSent :: rest) = countPackets rest + 1 := by
      simp [countPackets, List.countP_cons]
    rw [hcp]
    have hstep : runMon (c, g) (MonEvent.packetSent :: rest) =
        runMon (decStartup c, g) rest := rfl
    rw [hstep, ih]
    by_cases hc : c = 0
    · simp [decStartup, hc]
    · simp only [decStartup, if_pos hc]
      omega
  | MonEvent.fifoPoll t :: rest, c, g => by
    have ih := runMon_count rest c (overflowUpdate c t g)
    have hcp : countPackets (MonEvent.fifoPoll t :: rest) = countPackets rest := by
      simp [countPackets, List.countP_cons]
    rw [hcp]
    exact ih

theorem runMon_replicate_packets :
    ∀ (n : Nat) (c g : Nat),
      runMon (c, g) (List.replicate n MonEvent.packetSent) = (c - min n c, g)
  | 0, c, g => by simp [runMon]
  | n + 1, c, g => by
    rw [List.replicate_succ]
    have hstep : runMon (c, g) (MonEvent.packetSent :: List.replicate n MonEvent.packetSent) =
        runMon (decStartup c, g) (List.replicate n MonEvent.packetSent) := rfl
    rw [hstep, runMon_replicate_packets n (decStartup c) g]
    by_cases hc : c = 0
    · simp [decStartup, hc]
    · simp only [decStartup, if_pos hc]
      congr 1
      omega


/-- C8: As long as `StartupCount` is non-zero, an over-threshold
observation from the FIFO monitor never sets bit 0 of
`GlobalFIFOOverflows` (lines 211-216, 221-226); `StartupCount` starts at
`VSTARTUPDELAY = 100` on each stream start (line 158) and is decremented
once per emitted packet (lines 189-190), not per frame parsed, so
suppression lasts exactly the first 100 packets of a session: a trace
whose polls all happen before the 100th packet leaves
`GlobalFIFOOverflows` unchanged, while after exactly 100 packets an
over-threshold poll sets bit 0. -/
theorem C8_startup_suppression (evs : List MonEvent) (g0 : Nat)
    (hearly : ∀ pre t suf, evs = pre ++ MonEvent.fifoPoll t :: suf →
      countPackets pre < VSTARTUPDELAY) :
    (runMon (VSTARTUPDELAY, g0) evs).2 = g0 ∧
    (runMon (VSTARTUPDELAY, g0) evs).1 =
      VSTARTUPDELAY - min (countPackets evs) VSTARTUPDELAY ∧
    (∀ (c : Nat) (t : Bool) (g : Nat), c ≠ 0 → overflowUpdate c t g = g) ∧
    (runMon (VSTARTUPDELAY, g0)
        (List.replicate VSTARTUPDELAY MonEvent.packetSent ++ [MonEvent.fifoPoll true])).2 =
      g0 ||| 1 ∧
    Nat.testBit (g0 ||| 1) 0 = true ∧
    (∀ (sendOk : Nat → Bool) (t : DDCState),
      (drainStep sendOk t).startupCount = decStartup t.startupCount) ∧
    (∀ (t : DDCState) (bytes : List Nat),
      (applyOp t (SessionOp.fill bytes)).startupCount = t.startupCount) := by
  refine ⟨runMon_g_of_polls_early evs VSTARTUPDELAY g0 hearly,
    runMon_count evs VSTARTUPDELAY g0, ?_, ?_, ?_, fun sendOk t => rfl,
    fun t bytes => rfl⟩
  · intro c t g hc
    simp only [overflowUpdate]
    have h0 : (c == 0) = false := by
      simp [Nat.beq_eq_true_eq]
      omega
    rw [h0]
    simp
  · have happ : runMon (VSTARTUPDELAY, g0)
        (List.replicate VSTARTUPDELAY MonEvent.packetSent ++ [MonEvent.fifoPoll true]) =
        runMon (runMon (VSTARTUPDELAY, g0)
          (List.replicate VSTARTUPDELAY MonEvent.packetSent)) [MonEvent.fifoPoll true] := by
      simp [runMon, List.foldl_append]
    rw [happ, runMon_replicate_packets]
    simp [runMon, monStep, overflowUpdate]
  · rw [Nat.testBit_lor]
    have h1 : Nat.testBit 1 0 = true := rfl
    rw [h1]
    simp

/-- Witness for C8: a two-event trace whose only poll happens before any
packet; the global overflow word is unchanged. -/
theorem C8_startup_suppression_witness :
    (runMon (VSTARTUPDELAY, 5) [MonEvent.fifoPoll true, MonEvent.packetSent]).2 = 5 :=
  (C8_startup_suppression [MonEvent.fifoPoll true, MonEvent.packetSent] 5 (by
    intro pre t suf h
    have hl := congrArg List.length h
    simp at hl
    have hcp : countPackets pre ≤ pre.length := by
      simpa [countPackets] using List.countP_le_length
        (fun e => match e with | MonEvent.packetSent => true | _ => false) (l := pre)
    simp only [VSTARTUPDELAY]
    omega)).1


/-- The three pointers of a ring (DMA ring or per-DDC ring), as byte
offsets into the underlying buffer: `base` is `DMABasePtr`/`IQBasePtr`,
`read` is `DMAReadPtr`/`IQReadPtr`, `head` is `DMAHeadPtr`/`IQHeadPtr`
(OutDDCIQ.c lines 43-53). -/
structure RingPtrs where
  base : Nat
  read : Nat
  head : Nat
  deriving DecidableEq

/-- The residue-wrap (compact) step performed for each per-DDC ring at
OutDDCIQ.c lines 197-208 and for the DMA ring at lines 298-309:
if `read > base`, copy the residue to just below `base` and reset
`read = base - residue`, `head = base`. -/
def compactRing (r : RingPtrs) : RingPtrs :=
  let residue := r.head - r.read
  if r.base < r.read then
    if residue ≠ 0 then { r with read := r.base - residue, head := r.base }
    else { r with read := r.base, head := r.base }
  else r

/-- `DMAHeadPtr += DMATransferSize` after the DMA read (line 237): the
head pointer is advanced unconditionally; there is no bounds check and no
failure path. -/
def advanceHead (r : RingPtrs) (n : Nat) : RingPtrs := { r with head := r.head + n }

/-- Counterexample to C2: (a) from a state satisfying the claimed
invariant `base ≤ read ≤ head ≤ B` (4096 ≤ 4102 ≤ 4108 ≤ 131072), the
compact operation moves `read` strictly below `base` (to
`base - residue = 4090`); (b) advancing the head never fails: from
`head = B = VDMABUFFERSIZE` it simply makes `head` exceed the buffer
end. -/
theorem C2_counterexample :
    ((4096 : Nat) ≤ 4102 ∧ (4102 : Nat) ≤ 4108 ∧ (4108 : Nat) ≤ VDMABUFFERSIZE) ∧
    (compactRing { base := 4096, read := 4102, head := 4108 }).read <
      (compactRing { base := 4096, read := 4102, head := 4108 }).base ∧
    VDMABUFFERSIZE <
      (advanceHead { base := 4096, read := 4096, head := 131072 } 4096).head := by
  refine ⟨⟨?_, ?_, ?_⟩, ?_, ?_⟩ <;> decide

/-- C2 amended: after a compact with non-zero residue the read pointer
lies below `base` by exactly the residue (this is the pre-`base` slack
region), so the maintained invariant is `read ≤ head ≤ B` together with
`base - read ≤ residue`, not `base ≤ read`; and advancing the head by `n`
does not fail -- it adds `n` unconditionally, so `head ≤ B` is preserved
exactly when `head + n ≤ B`. -/
theorem C2_amended_ring_invariant (r : RingPtrs) (n B : Nat)
    (hrh : r.read ≤ r.head) (hbh : r.base ≤ r.head) (hhB : r.head ≤ B) :
    ((compactRing r).read ≤ (compactRing r).head ∧
      (compactRing r).head ≤ r.head ∧
      (compactRing r).head ≤ B ∧
      r.base - (compactRing r).read ≤ r.head - r.read) ∧
    (advanceHead r n).head = r.head + n ∧
    (r.head + n ≤ B → (advanceHead r n).head ≤ B) := by
  refine ⟨?_, rfl, fun h => h⟩
  simp only [compactRing]
  split
  · split
    · simp only
      refine ⟨?_, ?_, ?_, ?_⟩ <;> omega
    · simp only
      refine ⟨?_, ?_, ?_, ?_⟩ <;> omega
  · refine ⟨hrh, le_refl _, hhB, by omega⟩

/-- Witness for the amended C2 at a concrete ring state. -/
theorem C2_amended_ring_invariant_witness :
    ((4100 : Nat) ≤ 4105 ∧ (4096 : Nat) ≤ 4105 ∧ (4105 : Nat) ≤ 131072) ∧
    (compactRing { base := 4096, read := 4100, head := 4105 }).read ≤
      (compactRing { base := 4096, read := 4100, head := 4105 }).head :=
  ⟨⟨by decide, by decide, by decide⟩,
    ((C2_amended_ring_invariant { base := 4096, read := 4100, head := 4105 } 8 131072
      (by decide) (by decide) (by decide)).1).1⟩


/-- The inner pair-copy loop of the parser (OutDDCIQ.c lines 281-287):
for each of `n` pairs, copy three 16-bit words (6 bytes) from the source
and skip the fourth word (2 bytes), so each pair consumes one 8-byte slot
of the DMA stream and contributes its first 6 bytes. -/
def slotTake6 : Nat → List Nat → List Nat
  | 0, _ => []
  | n + 1, src => src.take 6 ++ slotTake6 n (src.drop 8)

/-- The per-DDC distribution loop of the parser (OutDDCIQ.c lines
275-290): DDC d receives `DDCCounts[d]` pairs and the shared source
pointer advances 8 bytes per pair, so DDC 0 gets the first slots, DDC 1
the next ones, and so on.  (When `DDCCounts[d] = 0` the `HdrWord != 0`
test skips the copy, which is the same as copying zero pairs.) -/
def distributeFrame : List Nat → List Nat → List (List Nat)
  | [], _ => []
  | c :: rest, src => slotTake6 c src :: distributeFrame rest (src.drop (8 * c))

/-- Result of parsing one complete frame: the new per-DDC ring contents
and the new DMA read offset. -/
structure ParseResult where
  rings : List (List Nat)
  readPos : Nat

/-- Processing of one complete frame by the steady-state parse loop
(OutDDCIQ.c lines 271-292): advance past the 8-byte header word
(line 273), distribute the pairs into the per-DDC rings appending at each
ring's head (lines 275-290), and advance the DMA read pointer by
`FrameLength * 8` more (line 291) -- `(FrameLength + 1) * 8` in total. -/
def parseOneFrame (ram : List Nat) (readPos frameLength : Nat) (counts : List Nat)
    (rings : List (List Nat)) : ParseResult :=
  { rings := List.zipWith (fun ring new => ring ++ new) rings
      (distributeFrame counts (ram.drop (readPos + 8)))
  , readPos := readPos + 8 + frameLength * 8 }

/-- Claim-side description of a per-DDC slice: the first six bytes of each
of `c` consecutive 8-byte slots of `payload`, starting at byte offset
`off`. -/
def slotsSpec (payload : List Nat) (off c : Nat) : List Nat :=
  ((List.range c).map (fun i => (payload.drop (off + 8 * i)).take 6)).flatten

theorem slotTake6_eq_spec :
    ∀ (c : Nat) (src : List Nat),
      slotTake6 c src = ((List.range c).map (fun i => (src.drop (8 * i)).take 6)).flatten
  | 0, src => rfl
  | c + 1, src => by
    rw [slotTake6, slotTake6_eq_spec c (src.drop 8), List.range_succ_eq_map]
    simp only [List.map_cons, List.map_map, List.flatten_cons, List.drop_drop]
    congr 1
    congr 1
    apply List.map_congr_left
    intro i _
    simp only [Function.comp_apply]
    rw [show 8 + 8 * i = 8 * Nat.succ i from by omega]

theorem slotTake6_length :
    ∀ (c : Nat) (src : List Nat), 8 * c ≤ src.length → (slotTake6 c src).length = 6 * c
  | 0, _, _ => rfl
  | c + 1, src, h => by
    rw [slotTake6, List.length_append, List.length_take,
      slotTake6_length c (src.drop 8) (by rw [List.length_drop]; omega)]
    omega

theorem distributeFrame_length :
    ∀ (counts : List Nat) (src : List Nat),
      (distributeFrame counts src).length = counts.length
  | [], _ => rfl
  | _ :: rest, src => by
    rw [distributeFrame, List.length_cons, List.length_cons,
      distributeFrame_length rest _]

theorem distributeFrame_getD :
    ∀ (counts : List Nat) (src : List Nat) (d : Nat), d < counts.length →
      (distributeFrame counts src).getD d [] =
        slotTake6 (counts.getD d 0) (src.drop (8 * (counts.take d).sum))
  | [], _, d, hd => by simp at hd
  | c :: rest, src, 0, _ => by simp [distributeFrame]
  | c :: rest, src, d + 1, hd => by
    rw [distributeFrame]
    have ih := distributeFrame_getD rest (src.drop (8 * c)) d
      (by simp at hd; omega)
    simp only [List.getD_cons_succ, List.take_succ_cons, List.sum_cons]
    rw [ih, List.drop_drop,
      show 8 * c + 8 * (List.take d rest).sum = 8 * (c + (List.take d rest).sum) from by ring]

theorem zipWith_append_getD :
    ∀ (as bs : List (List Nat)) (d : Nat), d < as.length → d < bs.length →
      (List.zipWith (fun ring new => ring ++ new) as bs).getD d [] =
        as.getD d [] ++ bs.getD d []
  | [], _, d, ha, _ => by simp at ha
  | _ :: _, [], d, _, hb => by simp at hb
  | a :: as, b :: bs, 0, _, _ => by simp [List.zipWith]
  | a :: as, b :: bs, d + 1, ha, hb => by
    simp only [List.zipWith, List.getD_cons_succ]
    exact zipWith_append_getD as bs d (by simp at ha; omega) (by simp at hb; omega)

theorem sum_take_getD_le :
    ∀ (l : List Nat) (d : Nat), d < l.length → (l.take d).sum + l.getD d 0 ≤ l.sum
  | [], d, hd => by simp at hd
  | x :: rest, 0, _ => by simp
  | x :: rest, d + 1, hd => by
    simp only [List.take_succ_cons, List.sum_cons, List.getD_cons_succ]
    have := sum_take_getD_le rest d (by simp at hd; omega)
    omega

theorem slotTake6_drop_eq_slotsSpec (payload : List Nat) (off c : Nat) :
    slotTake6 c (payload.drop off) = slotsSpec payload off c := by
  rw [slotTake6_eq_spec, slotsSpec]
  congr 1
  apply List.map_congr_left
  intro i _
  rw [List.drop_drop]


/-- C3: Whenever the parser processes one complete frame (readable length
at least `(FrameLength + 1) * 8` and the sync byte `0x80` at offset
`read + 7`), it appends exactly `6 * DDCCounts[d]` bytes to each per-DDC
ring d, taken as the first 6 bytes of each of `DDCCounts[d]` consecutive
8-byte slots (2 bytes skipped per slot), with DDC 0's slots first, then
DDC 1, and so on, and it advances the DMA read pointer by exactly
`(FrameLength + 1) * 8` bytes in total (OutDDCIQ.c lines 271-293).
The hypothesis `counts.sum ≤ frameLength` reflects the rate-word
decoder's contract (`frame_length` words cover all the pairs); it is what
makes every copied slot lie inside the frame. -/
theorem C3_parse_frame (ram : List Nat) (readPos headPos frameLength : Nat)
    (counts : List Nat) (rings : List (List Nat))
    (_hsync : ram.getD (readPos + 7) 0 = 0x80)
    (hready : readPos + (frameLength + 1) * 8 ≤ headPos)
    (hhead : headPos ≤ ram.length)
    (hsum : counts.sum ≤ frameLength)
    (hrings : rings.length = counts.length) :
    (parseOneFrame ram readPos frameLength counts rings).readPos =
      readPos + (frameLength + 1) * 8 ∧
    (parseOneFrame ram readPos frameLength counts rings).rings.length = rings.length ∧
    ∀ d, d < counts.length →
      (parseOneFrame ram readPos frameLength counts rings).rings.getD d [] =
        rings.getD d [] ++
          slotsSpec (ram.drop (readPos + 8)) (8 * (counts.take d).sum) (counts.getD d 0) ∧
      ((parseOneFrame ram readPos frameLength counts rings).rings.getD d []).length =
        (rings.getD d []).length + 6 * counts.getD d 0 := by
  refine ⟨by simp [parseOneFrame]; ring, ?_, ?_⟩
  · simp [parseOneFrame, List.length_zipWith, distributeFrame_length, hrings]
  · intro d hd
    have hslot : (distributeFrame counts (ram.drop (readPos + 8))).getD d [] =
        slotTake6 (counts.getD d 0) ((ram.drop (readPos + 8)).drop (8 * (counts.take d).sum)) :=
      distributeFrame_getD counts _ d hd
    have hzip : (parseOneFrame ram readPos frameLength counts rings).rings.getD d [] =
        rings.getD d [] ++ (distributeFrame counts (ram.drop (readPos + 8))).getD d [] := by
      apply zipWith_append_getD
      · omega
      · rw [distributeFrame_length]; exact hd
    have hslotlen : (slotTake6 (counts.getD d 0)
        ((ram.drop (readPos + 8)).drop (8 * (counts.take d).sum))).length =
        6 * counts.getD d 0 := by
      apply slotTake6_length
      have hle := sum_take_getD_le counts d hd
      simp only [List.length_drop]
      omega
    refine ⟨?_, ?_⟩
    · rw [hzip, hslot, slotTake6_drop_eq_slotsSpec]
    · rw [hzip, hslot, List.length_append, hslotlen]

/-- Concrete 24-byte DMA stream: one header word with sync byte `0x80` at
offset 7, followed by a frame of two 8-byte slots (one pair for DDC 0 and
one for DDC 1). -/
def C3exRam : List Nat :=
  [0, 0, 0, 0, 0, 0, 0, 0x80,
   1, 2, 3, 4, 5, 6, 7, 8,
   9, 10, 11, 12, 13, 14, 15, 16]

/-- Witness for C3: parsing the concrete frame advances the read pointer
by `(2 + 1) * 8 = 24` bytes and gives DDC 1 the first six bytes of the
second slot. -/
theorem C3_parse_frame_witness :
    (parseOneFrame C3exRam 0 2 [1, 1] [[], []]).readPos = 0 + (2 + 1) * 8 ∧
    (parseOneFrame C3exRam 0 2 [1, 1] [[], []]).rings.getD 1 [] =
      ([] : List Nat) ++ slotsSpec (C3exRam.drop (0 + 8)) (8 * ([1, 1].take 1).sum)
        ([1, 1].getD 1 0) :=
  ⟨(C3_parse_frame C3exRam 0 24 2 [1, 1] [[], []] (by decide) (by decide) (by decide)
      (by decide) (by decide)).1,
    ((C3_parse_frame C3exRam 0 24 2 [1, 1] [[], []] (by decide) (by decide) (by decide)
      (by decide) (by decide)).2.2 1 (by decide)).1⟩


/-- The fatal error conditions of the streaming pipeline
(OutDDCIQ.c): sync byte never found during acquisition (lines 248-252),
sync byte absent at the expected header position mid-stream (lines
256-261), and a failed `sendmsg` (lines 191-195). -/
inductive FatalKind where
  | syncNotFound
  | headerLostMidStream
  | sendFailure
  deriving DecidableEq

/-- How the thread ends: `processExit code` models a direct `exit(code)`
call (the whole process dies immediately, no cleanup); `threadReturn`
models falling out of the outer loop to the epilogue and returning from
the thread function, recording how many per-DDC sockets were closed, how
many DDCs were marked inactive, and whether the buffers were freed. -/
inductive ThreadOutcome where
  | processExit (code : Nat)
  | threadReturn (socketsClosed : Nat) (ddcsMarkedInactive : Nat) (buffersFreed : Bool)
  deriving DecidableEq

/-- Termination behaviour of each fatal error, read off the control flow
of `OutgoingDDCIQ`: both framing-loss cases call `exit(1)` on the spot
(lines 251 and 260); only a send failure sets `InitError` and unwinds to
the epilogue (lines 312-316), which closes the one socket
`ThreadData->Socketid`, sets the one flag `ThreadData->Active = false`
(both are DDC 0's, not all `VNUMDDC` of them), calls
`FreeDynamicMemory()`, and returns. -/
def fatalOutcome : FatalKind → ThreadOutcome
  | FatalKind.syncNotFound => ThreadOutcome.processExit 1
  | FatalKind.headerLostMidStream => ThreadOutcome.processExit 1
  | FatalKind.sendFailure => ThreadOutcome.threadReturn 1 1 true

/-- Counterexample to C6: framing loss during acquisition does not unwind
to the driver -- it terminates the whole process via `exit(1)`, so no
socket is closed, no DDC is marked inactive, and the buffers are not freed
before the thread exits. -/
theorem C6_counterexample :
    fatalOutcome FatalKind.syncNotFound = ThreadOutcome.processExit 1 ∧
    fatalOutcome FatalKind.headerLostMidStream = ThreadOutcome.processExit 1 := by
  exact ⟨rfl, rfl⟩

/-- C6 amended: only a send failure unwinds to the driver epilogue, which
closes one socket (DDC 0's), marks one DDC inactive, and frees the buffers
before the thread exits; framing loss -- no sync byte found during
acquisition, or the sync byte absent at the expected header position
mid-stream -- calls `exit(1)` and terminates the entire process
immediately, with no socket close, no DDC deactivation and no buffer
free. -/
theorem C6_amended_fatal_outcomes (k : FatalKind) :
    fatalOutcome k = (if k = FatalKind.sendFailure
      then ThreadOutcome.threadReturn 1 1 true
      else ThreadOutcome.processExit 1) := by
  cases k <;> rfl

/-- Burst-size selection from the most recently observed FIFO depth in
8-byte words (OutDDCIQ.c lines 228-235). -/
def chooseDMATransferSize (depth : Nat) : Nat :=
  if 4096 < depth then 32768
  else if 2048 < depth then 16384
  else if 1024 < depth then 8192
  else 4096

/-- The depth-wait loop (OutDDCIQ.c lines 217-227): keep re-reading the
FIFO monitor until the observed depth reaches
`threshold = DMATransferSize / 8`; `obs` is the sequence of depth
readings, the first being the reading already in hand from line 210.
Returns the reading that ended the wait. -/
def waitForDepth (threshold : Nat) : List Nat → Option Nat
  | [] => none
  | d :: rest => if d < threshold then waitForDepth threshold rest else some d

theorem waitForDepth_ge :
    ∀ (obs : List Nat) (threshold d : Nat),
      waitForDepth threshold obs = some d → threshold ≤ d
  | [], _, _, h => by simp [waitForDepth] at h
  | o :: rest, threshold, d, h => by
    rw [waitForDepth] at h
    by_cases ho : o < threshold
    · rw [if_pos ho] at h
      exact waitForDepth_ge rest threshold d h
    · rw [if_neg ho] at h
      cases h
      omega

/-- C7: Each DMA burst size is one of {4096, 8192, 16384, 32768} bytes,
selected from the observed FIFO depth in 8-byte words by the thresholds
`>4096 -> 32768`, `>2048 -> 16384`, `>1024 -> 8192`, else `4096`; and at
the moment the DMA read is issued, the most recently observed depth `d`
(the one that ended the wait loop, whose threshold is the previous burst
size over 8, itself at least 4096/8 = 512) is at least `burst/8`, so the
burst size -- a multiple of 8 -- never exceeds 8 times the observed
depth (OutDDCIQ.c lines 217-237). -/
theorem C7_burst_sizing (prevSize d : Nat) (obs : List Nat)
    (hprev : prevSize ∈ [4096, 8192, 16384, 32768])
    (hwait : waitForDepth (prevSize / 8) obs = some d) :
    chooseDMATransferSize d ∈ [4096, 8192, 16384, 32768] ∧
    (4096 < d → chooseDMATransferSize d = 32768) ∧
    (2048 < d ∧ d ≤ 4096 → chooseDMATransferSize d = 16384) ∧
    (1024 < d ∧ d ≤ 2048 → chooseDMATransferSize d = 8192) ∧
    (d ≤ 1024 → chooseDMATransferSize d = 4096) ∧
    chooseDMATransferSize d % 8 = 0 ∧
    chooseDMATransferSize d / 8 ≤ d ∧
    chooseDMATransferSize d ≤ 8 * d := by
  have hd : prevSize / 8 ≤ d := waitForDepth_ge obs _ d hwait
  have h512 : 512 ≤ d := by
    simp only [List.mem_cons, List.not_mem_nil, or_false] at hprev
    rcases hprev with h | h | h | h <;> subst h <;> omega
  unfold chooseDMATransferSize
  split
  · refine ⟨by simp, fun _ => rfl, fun hx => by omega, fun hx => by omega,
      fun hx => by omega, by norm_num, by omega, by omega⟩
  · split
    · refine ⟨by simp, fun hx => by omega, fun _ => rfl, fun hx => by omega,
        fun hx => by omega, by norm_num, by omega, by omega⟩
    · split
      · refine ⟨by simp, fun hx => by omega, fun hx => by omega, fun _ => rfl,
          fun hx => by omega, by norm_num, by omega, by omega⟩
      · refine ⟨by simp, fun hx => by omega, fun hx => by omega, fun hx => by omega,
          fun _ => rfl, by norm_num, by omega, by omega⟩

/-- Witness for C7: previous burst 4096, a single depth reading of 600
words ends the wait; the chosen burst is 4096 bytes = 512 words ≤ 600. -/
theorem C7_burst_sizing_witness :
    (4096 : Nat) ∈ [4096, 8192, 16384, 32768] ∧
    waitForDepth (4096 / 8) [600] = some 600 ∧
    chooseDMATransferSize 600 / 8 ≤ 600 :=
  ⟨by decide, by decide,
    (C7_burst_sizing 4096 600 [600] (by decide) (by decide)).2.2.2.2.2.2.1⟩


/-- Stateful actions of the driver loop, at the granularity needed to
trace one Arming + Streaming session of `OutgoingDDCIQ`
(OutDDCIQ.c lines 144-311). -/
inductive DriverCall where
  | setRXDDCEnabled (enabled : Bool)
  | drainAndCompactDDCRings
  | pollFIFOAndDMARead
  | parseFrames
  | compactDMARing
  deriving DecidableEq, BEq

/-- The actions of one iteration of the streaming `while` loop
(OutDDCIQ.c lines 175-310), in program order. -/
def streamingIterationCalls : List DriverCall :=
  [DriverCall.drainAndCompactDDCRings, DriverCall.pollFIFOAndDMARead,
   DriverCall.parseFrames, DriverCall.compactDMARing]

/-- The action trace of one session: Arming performs
`SetRXDDCEnabled(true)` (line 173); then `iterations` passes of the
streaming loop run; when `SDRActive` is observed false the inner `while`
(line 175) exits directly back to the idle loop (line 146) -- the trace
records no action between the last iteration and Idle, because the code
performs none. -/
def sessionCalls (iterations : Nat) : List DriverCall :=
  DriverCall.setRXDDCEnabled true ::
    (List.replicate iterations streamingIterationCalls).flatten

/-- Counterexample to C9: in a three-iteration session trace there is no
`SetRXDDCEnabled(false)` call at all -- in particular none after the
streaming loop exits -- and no extra compact beyond the ones inside the
iterations. -/
theorem C9_counterexample :
    (sessionCalls 3).contains (DriverCall.setRXDDCEnabled false) = false ∧
    sessionCalls 3 = DriverCall.setRXDDCEnabled true ::
      (streamingIterationCalls ++ (streamingIterationCalls ++ streamingIterationCalls)) := by
  exact ⟨by decide, by decide⟩

theorem count_flatten_replicate (n : Nat) (l : List DriverCall) (a : DriverCall) :
    ((List.replicate n l).flatten).count a = n * l.count a := by
  induction n with
  | zero => simp
  | succ m ih =>
    rw [List.replicate_succ, List.flatten_cons, List.count_append, ih]
    ring

/-- C9 amended: when `sdr_active` becomes false during Streaming, the
driver exits the streaming loop directly back to Idle.  The rings were
last compacted by the final streaming iteration's own body;
`set_rx_ddc_enabled(false)` is never called during or after a session
(the only disable call in the thread is the one at startup, line 135,
before any session), and the only enable call of a session is the one at
Arming. -/
theorem C9_amended_no_draining_actions (iterations : Nat) :
    (sessionCalls iterations).count (DriverCall.setRXDDCEnabled false) = 0 ∧
    (sessionCalls iterations).count (DriverCall.setRXDDCEnabled true) = 1 ∧
    sessionCalls iterations = DriverCall.setRXDDCEnabled true ::
      (List.replicate iterations streamingIterationCalls).flatten := by
  have hfalse : streamingIterationCalls.count (DriverCall.setRXDDCEnabled false) = 0 := by
    decide
  have htrue : streamingIterationCalls.count (DriverCall.setRXDDCEnabled true) = 0 := by
    decide
  refine ⟨?_, ?_, rfl⟩
  · rw [sessionCalls, List.count_cons, count_flatten_replicate, hfalse]
    simp only [Nat.mul_zero, Nat.zero_add]
    decide
  · rw [sessionCalls, List.count_cons, count_flatten_replicate, htrue]
    simp only [Nat.mul_zero, Nat.zero_add]
    decide

/-- C sized types as needed for the `sizeof` expressions in the datagram
setup: `struct sockaddr_in` (16 bytes on Linux) and fixed-size arrays. -/
inductive CSizedType where
  | sockaddr_in_t
  | arrayOf (elem : CSizedType) (n : Nat)

def csizeof : CSizedType → Nat
  | CSizedType.sockaddr_in_t => 16
  | CSizedType.arrayOf t n => n * csizeof t

/-- The declared type of `DestAddr`:
`struct sockaddr_in DestAddr[VNUMDDC]` (OutDDCIQ.c line 102). -/
def destAddrType (numDDC : Nat) : CSizedType :=
  CSizedType.arrayOf CSizedType.sockaddr_in_t numDDC

/-- The fields of `datagram[DDC]`/`iovecinst[DDC]` set up per DDC at
stream start (OutDDCIQ.c lines 163-170). -/
structure MsgHdrModel where
  msg_namelen : Nat
  msg_iovlen : Nat
  iov_len : Nat

/-- Line 170 sets `msg_namelen = sizeof(DestAddr)` -- the C `sizeof` of
the whole `VNUMDDC`-element array, not of the single `sockaddr_in` that
`msg_name` points at. -/
def setupDatagram (numDDC : Nat) : MsgHdrModel :=
  { msg_namelen := csizeof (destAddrType numDDC)
  , msg_iovlen := 1
  , iov_len := VDDCPACKETSIZE }

/-- C10: For every DDC, the `msghdr` passed to `sendmsg` has its
`msg_namelen` field set to the size of the entire `DestAddr` array
(`VNUMDDC * sizeof(struct sockaddr_in)`), not to the size of the single
`sockaddr_in` it points at (for any array length of at least 2). -/
theorem C10_msg_namelen (numDDC : Nat) :
    (setupDatagram numDDC).msg_namelen = numDDC * csizeof CSizedType.sockaddr_in_t ∧
    (2 ≤ numDDC →
      (setupDatagram numDDC).msg_namelen ≠ csizeof CSizedType.sockaddr_in_t) := by
  constructor
  · rfl
  · intro h
    simp only [setupDatagram, destAddrType, csizeof]
    omega

/-- Witness for C10 at the typical `VNUMDDC = 10`: the namelen is 160
bytes, ten times the size of one `sockaddr_in`. -/
theorem C10_msg_namelen_witness :
    (2 ≤ 10) ∧
    (setupDatagram 10).msg_namelen ≠ csizeof CSizedType.sockaddr_in_t :=
  ⟨by decide, (C10_msg_namelen 10).2 (by decide)⟩

end Saturn
